import Mathlib

/-!
Verification development for the Real-Time Market Data Feed Handler.

Shallow embedding of the repository's core components:
  - the MiniITCH wire protocol and its encoder/decoder
    (include/mdfh/protocol/messages.hpp, include/mdfh/protocol/encoder.hpp);
  - the parser stage's record walk (src/handler/parser_stage.cpp);
  - the order store, per-symbol order book and book manager
    (include/mdfh/core/order_store.hpp, include/mdfh/core/order_book.hpp);
  - the book stage's message dispatch (src/handler/book_stage.cpp);
  - the SPSC ring buffer head/tail discipline (include/mdfh/core/spsc_queue.hpp);
  - the market simulator's event generator (src/simulator/market_simulator.cpp).

Machine integers are modelled as Nat with explicit reduction modulo 2^w at
the points where the C++ code performs modular (unsigned) arithmetic.
Byte buffers are lists of Nat, each entry holding one byte value.
-/

namespace Mdfh

/-! ## Little-endian byte serialization

The C++ code serializes packed structs with memcpy on a little-endian host;
each fixed-width unsigned field therefore appears on the wire as its
little-endian byte sequence.  `toLE n x` is the `n`-byte little-endian
image of `x`; `readLE n bs` reassembles the first `n` bytes of `bs`. -/

def toLE : Nat → Nat → List Nat
  | 0, _ => []
  | n + 1, x => x % 256 :: toLE n (x / 256)

def readLE : Nat → List Nat → Nat
  | 0, _ => 0
  | _ + 1, [] => 0
  | n + 1, b :: bs => b + 256 * readLE n bs



/-! ## Protocol messages (include/mdfh/protocol/messages.hpp)

Field widths: OrderId 8 bytes, Side 1 byte, Symbol 8 bytes (its uint64
key), Price 4 bytes, Quantity 4 bytes.  The `ParsedMessage` variant of the
five record structs is modelled as an inductive with one constructor per
record type; fields are the struct fields in declaration order. -/

structure MessageHeader where
  message_length : Nat
  message_type : Nat
  timestamp : Nat
  deriving DecidableEq, Repr

inductive ParsedMessage where
  | addOrder (order_id side symbol price quantity : Nat)
  | cancelOrder (order_id : Nat)
  | executeOrder (order_id exec_quantity : Nat)
  | replaceOrder (order_id new_price new_quantity : Nat)
  | tradeMessage (symbol price quantity buy_order_id sell_order_id : Nat)
  deriving DecidableEq, Repr

namespace ParsedMessage

/-- Message type tags: 'A' = 65, 'X' = 88, 'E' = 69, 'R' = 82, 'T' = 84. -/
def typeByte : ParsedMessage → Nat
  | .addOrder .. => 65
  | .cancelOrder .. => 88
  | .executeOrder .. => 69
  | .replaceOrder .. => 82
  | .tradeMessage .. => 84

/-- WIRE_SIZE constants from messages.hpp. -/
def wireSize : ParsedMessage → Nat
  | .addOrder .. => 36
  | .cancelOrder .. => 19
  | .executeOrder .. => 23
  | .replaceOrder .. => 27
  | .tradeMessage .. => 43

/-- Payload bytes: the packed struct fields, little-endian, no padding. -/
def payloadBytes : ParsedMessage → List Nat
  | .addOrder oid side sym price qty =>
      toLE 8 oid ++ toLE 1 side ++ toLE 8 sym ++ toLE 4 price ++ toLE 4 qty
  | .cancelOrder oid => toLE 8 oid
  | .executeOrder oid q => toLE 8 oid ++ toLE 4 q
  | .replaceOrder oid p q => toLE 8 oid ++ toLE 4 p ++ toLE 4 q
  | .tradeMessage sym price qty b s =>
      toLE 8 sym ++ toLE 4 price ++ toLE 4 qty ++ toLE 8 b ++ toLE 8 s

/-- Well-formed field ranges for the unsigned struct fields. -/
def WF : ParsedMessage → Prop
  | .addOrder oid side sym price qty =>
      oid < 2 ^ 64 ∧ side < 2 ^ 8 ∧ sym < 2 ^ 64 ∧ price < 2 ^ 32 ∧ qty < 2 ^ 32
  | .cancelOrder oid => oid < 2 ^ 64
  | .executeOrder oid q => oid < 2 ^ 64 ∧ q < 2 ^ 32
  | .replaceOrder oid p q => oid < 2 ^ 64 ∧ p < 2 ^ 32 ∧ q < 2 ^ 32
  | .tradeMessage sym price qty b s =>
      sym < 2 ^ 64 ∧ price < 2 ^ 32 ∧ qty < 2 ^ 32 ∧ b < 2 ^ 64 ∧ s < 2 ^ 64

instance : DecidablePred WF := by
  intro m
  cases m <;> simp only [WF] <;> infer_instance

end ParsedMessage

namespace Encoder

/-- Serialized record: 11-byte header (length u16, type byte, timestamp u64),
then the payload, exactly as `Encoder::encode` writes them. -/
def encodeBytes (m : ParsedMessage) (ts : Nat) : List Nat :=
  toLE 2 m.wireSize ++ toLE 1 m.typeByte ++ toLE 8 ts ++ m.payloadBytes

/-- Encoder::encode — returns none (bytes_written = 0) when the buffer
capacity is smaller than the record's wire size, otherwise the bytes. -/
def encode (m : ParsedMessage) (ts : Nat) (buffer_size : Nat) :
    Option (List Nat) :=
  if buffer_size < m.wireSize then none else some (encodeBytes m ts)

/-- Encoder::decode_header — memcpy of the first 11 bytes into the header. -/
def decode_header (buffer : List Nat) : MessageHeader :=
  { message_length := readLE 2 buffer
    message_type := readLE 1 (buffer.drop 2)
    timestamp := readLE 8 (buffer.drop 3) }

/-- Encoder::parse — dispatch on the header's type byte and memcpy the
payload field-by-field; an unrecognized tag returns a value-initialized
AddOrder (the `default:` branch of the switch). -/
def parse (buffer : List Nat) : ParsedMessage :=
  let header := decode_header buffer
  let payload := buffer.drop 11
  if header.message_type = 65 then
    .addOrder (readLE 8 payload) (readLE 1 (payload.drop 8))
      (readLE 8 (payload.drop 9)) (readLE 4 (payload.drop 17))
      (readLE 4 (payload.drop 21))
  else if header.message_type = 88 then
    .cancelOrder (readLE 8 payload)
  else if header.message_type = 69 then
    .executeOrder (readLE 8 payload) (readLE 4 (payload.drop 8))
  else if header.message_type = 82 then
    .replaceOrder (readLE 8 payload) (readLE 4 (payload.drop 8))
      (readLE 4 (payload.drop 12))
  else if header.message_type = 84 then
    .tradeMessage (readLE 8 payload) (readLE 4 (payload.drop 8))
      (readLE 4 (payload.drop 12)) (readLE 8 (payload.drop 16))
      (readLE 8 (payload.drop 24))
  else
    .addOrder 0 0 0 0 0



end Encoder

/-! ## Parser stage record walk (src/handler/parser_stage.cpp)

`ParserStage::run` walks a datagram's back-to-back records.  The loop is
modelled on the remaining suffix of the packet: the loop guard
`offset + sizeof(MessageHeader) <= packet.length` becomes
`11 ≤ bs.length`, and the malformed-header check
`header.message_length == 0 || offset + header.message_length > packet.length`
becomes `message_length = 0 ∨ bs.length < message_length`. -/

structure TimestampedMessage where
  message : ParsedMessage
  receive_timestamp : Nat
  protocol_timestamp : Nat
  deriving DecidableEq, Repr

namespace ParserStage

/-- The record walk of `ParserStage::run` over one RawPacket, returning the
TimestampedMessage events pushed into Q2, in order. -/
def walk (receive_ts : Nat) (bs : List Nat) : List TimestampedMessage :=
  if h11 : 11 ≤ bs.length then
    if hbad : (Encoder.decode_header bs).message_length = 0 ∨
        bs.length < (Encoder.decode_header bs).message_length then
      []
    else
      { message := Encoder.parse bs
        receive_timestamp := receive_ts
        protocol_timestamp := (Encoder.decode_header bs).timestamp } ::
        walk receive_ts (bs.drop (Encoder.decode_header bs).message_length)
  else []
termination_by bs.length
decreasing_by
  simp only [List.length_drop]
  push_neg at hbad
  omega



end ParserStage

/-! ## Association-list maps

The C++ book engine stores its state in `std::unordered_map` (order store,
book table, simulator inventory) and `std::map` (price levels, ordered
ascending by key).  Both are modelled as association lists; `std::map`
lists additionally keep their keys in strictly ascending order by
construction.  All operations resolve a key at its first occurrence, which
on unique-key lists coincides with map semantics. -/

def assoc {α : Type} : List (Nat × α) → Nat → Option α
  | [], _ => none
  | (k, v) :: t, key => if k = key then some v else assoc t key

def assocUpdate {α : Type} : List (Nat × α) → Nat → (α → α) → List (Nat × α)
  | [], _, _ => []
  | (k, v) :: t, key, f =>
      if k = key then (k, f v) :: t else (k, v) :: assocUpdate t key f

def assocErase {α : Type} : List (Nat × α) → Nat → List (Nat × α)
  | [], _ => []
  | (k, v) :: t, key => if k = key then t else (k, v) :: assocErase t key

/-- Write through a key (`map[key] = v`): replace the first binding or
append a fresh one. -/
def assocSet {α : Type} : List (Nat × α) → Nat → α → List (Nat × α)
  | [], key, v => [(key, v)]
  | (k, w) :: t, key, v =>
      if k = key then (k, v) :: t else (k, w) :: assocSet t key v



/-! ## Order store (include/mdfh/core/order_store.hpp) -/

structure Order where
  order_id : Nat
  side : Nat
  symbol : Nat
  price : Nat
  remaining_quantity : Nat
  deriving DecidableEq, Repr

/-- The open-addressed order-by-id map.  `insert` keys on
`order.order_id`; `find` and `erase` key on the argument id. -/
abbrev OrderStore := List (Nat × Order)

def OrderStore.insert (s : OrderStore) (o : Order) : OrderStore :=
  assocSet s o.order_id o

def OrderStore.find (s : OrderStore) (id : Nat) : Option Order :=
  assoc s id

def OrderStore.erase (s : OrderStore) (id : Nat) : OrderStore :=
  assocErase s id

/-! ## Order book (include/mdfh/core/order_book.hpp) -/

structure PriceLevel where
  price : Nat
  total_quantity : Nat
  order_count : Nat
  deriving DecidableEq, Repr

/-- Body of `add_level_quantity` applied to the fetched-or-created level:
`lvl.price = price; lvl.total_quantity += qty; lvl.order_count++` with
uint32 / uint16 wraparound. -/
def bumpLevel (price qty : Nat) (l : PriceLevel) : PriceLevel :=
  ⟨price, (l.total_quantity + qty) % 2 ^ 32, (l.order_count + 1) % 2 ^ 16⟩

/-- Price-keyed `std::map` side: `levels[price]` fetch-or-create (value
initialization gives the zero level), then the add body; insertion keeps
ascending key order. -/
def addQtyLevels : List (Nat × PriceLevel) → Nat → Nat → List (Nat × PriceLevel)
  | [], price, qty => [(price, bumpLevel price qty ⟨0, 0, 0⟩)]
  | (p, l) :: t, price, qty =>
      if price < p then (price, bumpLevel price qty ⟨0, 0, 0⟩) :: (p, l) :: t
      else if price = p then (p, bumpLevel price qty l) :: t
      else (p, l) :: addQtyLevels t price qty

/-- Body of `remove_level_quantity`: locate the level (silent return when
absent), clamp the subtraction at zero, floor the order count at zero, and
erase the entry when its total quantity reaches zero. -/
def removeQtyLevels : List (Nat × PriceLevel) → Nat → Nat → List (Nat × PriceLevel)
  | [], _, _ => []
  | (p, l) :: t, price, qty =>
      if p = price then
        let total := if qty ≥ l.total_quantity then 0 else l.total_quantity - qty
        let count := if l.order_count > 0 then l.order_count - 1 else l.order_count
        if total = 0 then t else (p, ⟨l.price, total, count⟩) :: t
      else (p, l) :: removeQtyLevels t price qty

structure OrderBook where
  symbol : Nat
  bids : List (Nat × PriceLevel)
  asks : List (Nat × PriceLevel)
  deriving DecidableEq, Repr

namespace OrderBook

/-- Side selection `(side == Side::Buy) ? bids_ : asks_` — Buy is byte 1;
any other side byte selects the ask side. -/
def sideLevels (b : OrderBook) (side : Nat) : List (Nat × PriceLevel) :=
  if side = 1 then b.bids else b.asks

def add_level_quantity (b : OrderBook) (side price qty : Nat) : OrderBook :=
  if side = 1 then { b with bids := addQtyLevels b.bids price qty }
  else { b with asks := addQtyLevels b.asks price qty }

def remove_level_quantity (b : OrderBook) (side price qty : Nat) : OrderBook :=
  if side = 1 then { b with bids := removeQtyLevels b.bids price qty }
  else { b with asks := removeQtyLevels b.asks price qty }

/-- Best bid: the greatest bid key (`bids_.rbegin()`), 0 when empty. -/
def best_bid_price (b : OrderBook) : Nat :=
  match b.bids.getLast? with
  | none => 0
  | some e => e.1

def best_bid_quantity (b : OrderBook) : Nat :=
  match b.bids.getLast? with
  | none => 0
  | some e => e.2.total_quantity

/-- Best ask: the least ask key (`asks_.begin()`), 0 when empty. -/
def best_ask_price (b : OrderBook) : Nat :=
  match b.asks.head? with
  | none => 0
  | some e => e.1

def best_ask_quantity (b : OrderBook) : Nat :=
  match b.asks.head? with
  | none => 0
  | some e => e.2.total_quantity

def bid_order_count (b : OrderBook) (price : Nat) : Nat :=
  match assoc b.bids price with
  | none => 0
  | some l => l.order_count

end OrderBook

/-! ## Book manager (include/mdfh/core/order_book.hpp, OrderBookManager) -/

structure OrderBookManager where
  store : OrderStore
  books : List (Nat × OrderBook)
  deriving DecidableEq, Repr

namespace OrderBookManager

def empty : OrderBookManager := ⟨[], []⟩

def get_book (m : OrderBookManager) (sym : Nat) : Option OrderBook :=
  assoc m.books sym

/-- get_or_create_book followed by a mutation of the found book. -/
def withBook (books : List (Nat × OrderBook)) (sym : Nat)
    (f : OrderBook → OrderBook) : List (Nat × OrderBook) :=
  match assoc books sym with
  | some _ => assocUpdate books sym f
  | none => books ++ [(sym, f ⟨sym, [], []⟩)]

def add_order (m : OrderBookManager) (id side sym price qty : Nat) :
    OrderBookManager :=
  { store := m.store.insert ⟨id, side, sym, price, qty⟩
    books := withBook m.books sym fun b => b.add_level_quantity side price qty }

def cancel_order (m : OrderBookManager) (id : Nat) : OrderBookManager :=
  match m.store.find id with
  | none => m
  | some o =>
      { store := m.store.erase id
        books := assocUpdate m.books o.symbol fun b =>
          b.remove_level_quantity o.side o.price o.remaining_quantity }

def execute_order (m : OrderBookManager) (id exec_qty : Nat) : OrderBookManager :=
  match m.store.find id with
  | none => m
  | some o =>
      let books1 := assocUpdate m.books o.symbol fun b =>
        b.remove_level_quantity o.side o.price exec_qty
      if exec_qty ≥ o.remaining_quantity then
        { store := m.store.erase id, books := books1 }
      else
        { store := assocUpdate m.store id fun w =>
            { w with remaining_quantity := w.remaining_quantity - exec_qty }
          books := books1 }

def replace_order (m : OrderBookManager) (id new_price new_qty : Nat) :
    OrderBookManager :=
  match m.store.find id with
  | none => m
  | some o =>
      { store := assocUpdate m.store id fun w =>
          { w with price := new_price, remaining_quantity := new_qty }
        books := assocUpdate m.books o.symbol fun b =>
          (b.remove_level_quantity o.side o.price o.remaining_quantity
            ).add_level_quantity o.side new_price new_qty }

end OrderBookManager

/-! ## Book stage (src/handler/book_stage.cpp) -/

structure BookUpdate where
  symbol : Nat
  best_bid : Nat
  best_bid_qty : Nat
  best_ask : Nat
  best_ask_qty : Nat
  receive_timestamp : Nat
  book_update_timestamp : Nat
  deriving DecidableEq, Repr

namespace BookStage

/-- BookStage::emit_book_update: look the book up (return silently when
absent), snapshot top of book, and push one BookUpdate. -/
def emit_book_update (m : OrderBookManager) (sym receive_ts update_ts : Nat) :
    List BookUpdate :=
  match m.get_book sym with
  | none => []
  | some b =>
      [{ symbol := sym
         best_bid := b.best_bid_price
         best_bid_qty := b.best_bid_quantity
         best_ask := b.best_ask_price
         best_ask_qty := b.best_ask_quantity
         receive_timestamp := receive_ts
         book_update_timestamp := update_ts }]

/-- BookStage::process_message: dispatch on the variant.  Only the
AddOrder branch calls emit_book_update; the CancelOrder, ExecuteOrder,
ReplaceOrder and TradeMessage branches push nothing into the output
queue.  Returns the new book-manager state and the BookUpdates pushed. -/
def process_message (m : OrderBookManager) (tmsg : TimestampedMessage)
    (update_ts : Nat) : OrderBookManager × List BookUpdate :=
  match tmsg.message with
  | .addOrder id side sym price qty =>
      let m1 := m.add_order id side sym price qty
      (m1, emit_book_update m1 sym tmsg.receive_timestamp update_ts)
  | .cancelOrder id => (m.cancel_order id, [])
  | .executeOrder id q => (m.execute_order id q, [])
  | .replaceOrder id p q => (m.replace_order id p q, [])
  | .tradeMessage .. => (m, [])

end BookStage

/-! ## SPSC ring buffer (include/mdfh/core/spsc_queue.hpp)

Only the single-threaded head/tail discipline is modelled: `try_push`
reads its own head, compares the masked successor with the tail, and
either fails (full) or stores the item and publishes the new head.
`kMask = Capacity - 1` and index wrap is `index &&& kMask`. -/

structure SPSCQueue (α : Type) where
  capacity : Nat
  head : Nat
  tail : Nat
  buffer : Nat → α

namespace SPSCQueue

def init (α : Type) (capacity : Nat) (fill : α) : SPSCQueue α :=
  ⟨capacity, 0, 0, fun _ => fill⟩

def try_push {α : Type} (q : SPSCQueue α) (item : α) : Option (SPSCQueue α) :=
  let next := (q.head + 1) &&& (q.capacity - 1)
  if next = q.tail then none
  else some { q with
    buffer := fun i => if i = q.head then item else q.buffer i
    head := next }

def try_pop {α : Type} (q : SPSCQueue α) : Option (α × SPSCQueue α) :=
  if q.tail = q.head then none
  else some (q.buffer q.tail, { q with tail := (q.tail + 1) &&& (q.capacity - 1) })

/-- A sequence of try_push calls; none as soon as one returns false. -/
def pushAll {α : Type} : SPSCQueue α → List α → Option (SPSCQueue α)
  | q, [] => some q
  | q, x :: xs =>
      match try_push q x with
      | none => none
      | some q1 => pushAll q1 xs



end SPSCQueue

/-! ## Market simulator (src/simulator/market_simulator.cpp)

The generator's random draws come from a seeded `std::mt19937`; the raw
draw stream is a pure function of the seed, so it is modelled as a stream
`rng : Nat → Nat` consumed at `rng_index`.  The standard library's
`uniform_int_distribution` and `discrete_distribution` mappings from a raw
draw into a range are implementation-defined; they are modelled as fixed
deterministic functions of one draw (`uniformNat`, `msgTypeOf`); every
property proved below holds for any such deterministic mapping.  The two
wall clocks are explicit inputs: `clock i` is the i-th reading of
`Clock::nanos_since_midnight()` (header timestamps) and `break_now` gives
the outcomes of the `steady_clock` pacing comparisons. -/

structure SimConfig where
  symbols : List Nat
  messages_per_second : Nat
  duration_seconds : Nat
  seed : Nat
  initial_prices : List (Nat × Nat)

structure SimOrder where
  id : Nat
  side : Nat
  symbol : Nat
  price : Nat
  quantity : Nat
  deriving DecidableEq, Repr

structure SimState where
  rng_index : Nat
  next_order_id : Nat
  active_orders : List (Nat × SimOrder)
  active_order_ids : List Nat
  current_prices : List (Nat × Nat)
  deriving DecidableEq, Repr

/-- Model of `uniform_int_distribution(lo, hi)` applied to one raw draw. -/
def uniformNat (draw lo hi : Nat) : Nat := lo + draw % (hi + 1 - lo)

/-- Model of `discrete_distribution({40, 25, 20, 10, 5})` on one raw draw:
0 = Add, 1 = Cancel, 2 = Execute, 3 = Replace, 4 = Trade. -/
def msgTypeOf (draw : Nat) : Nat :=
  let r := draw % 100
  if r < 40 then 0 else if r < 65 then 1 else if r < 85 then 2
  else if r < 95 then 3 else 4

namespace MarketSimulator

/-- pick_random_symbol: uniform index into the configured symbol list. -/
def pick_random_symbol (cfg : SimConfig) (draw : Nat) : Nat :=
  cfg.symbols.getD (uniformNat draw 0 (cfg.symbols.length - 1)) 0

/-- jitter_price: base plus uniform jitter in [-5000, 5000], clamped below
at 1, stored as a uint32 Price. -/
def jitter_price (base draw : Nat) : Nat :=
  (max 1 ((base : Int) + ((uniformNat draw 0 10000 : Int) - 5000))).toNat % 2 ^ 32

/-- current_prices_[key]: value-initializing operator[] — returns the
present value, or inserts and returns 0. -/
def price_ref (ps : List (Nat × Nat)) (k : Nat) : Nat × List (Nat × Nat) :=
  match assoc ps k with
  | some v => (v, ps)
  | none => (0, ps ++ [(k, 0)])

/-- pick_random_active_order: 0 when the inventory is empty (no draw
consumed), otherwise a uniformly picked live id (one draw). -/
def pick_random_active_order (rng : Nat → Nat) (st : SimState) :
    Nat × SimState :=
  if st.active_order_ids.isEmpty then (0, st)
  else
    (st.active_order_ids.getD
        (uniformNat (rng st.rng_index) 0 (st.active_order_ids.length - 1)) 0,
      { st with rng_index := st.rng_index + 1 })

/-- Result of one generate_* call: the record encoded into the send buffer
(if any), the number of Clock::nanos_since_midnight() calls made, the new
buffer offset, and the new generator state. -/
structure GenResult where
  emitted : Option ParsedMessage
  clock_calls : Nat
  offset : Nat
  state : SimState

def generate_add_order (cfg : SimConfig) (rng : Nat → Nat) (st : SimState)
    (offset : Nat) : GenResult :=
  let oid := st.next_order_id
  let sym := pick_random_symbol cfg (rng st.rng_index)
  let side := if uniformNat (rng (st.rng_index + 1)) 0 1 ≠ 0 then 1 else 2
  let pr := price_ref st.current_prices sym
  let price := jitter_price pr.1 (rng (st.rng_index + 2))
  let qty := uniformNat (rng (st.rng_index + 3)) 10 1000
  let st1 := { st with rng_index := st.rng_index + 4, next_order_id := oid + 1
                       current_prices := pr.2 }
  if 1400 - offset < 36 then ⟨none, 1, offset, st1⟩
  else
    ⟨some (.addOrder oid side sym price qty), 1, offset + 36,
      { st1 with
        active_orders := assocSet st1.active_orders oid ⟨oid, side, sym, price, qty⟩
        active_order_ids := st1.active_order_ids ++ [oid] }⟩

def generate_cancel_order (cfg : SimConfig) (rng : Nat → Nat) (st : SimState)
    (offset : Nat) : GenResult :=
  let pick := pick_random_active_order rng st
  if pick.1 = 0 then generate_add_order cfg rng pick.2 offset
  else
    let id := pick.1
    let st1 := pick.2
    if 1400 - offset < 19 then ⟨none, 1, offset, st1⟩
    else
      ⟨some (.cancelOrder id), 1, offset + 19,
        { st1 with
          active_orders := assocErase st1.active_orders id
          active_order_ids := st1.active_order_ids.filter (· ≠ id) }⟩

def generate_execute_order (cfg : SimConfig) (rng : Nat → Nat) (st : SimState)
    (offset : Nat) : GenResult :=
  let pick := pick_random_active_order rng st
  if pick.1 = 0 then generate_add_order cfg rng pick.2 offset
  else
    let id := pick.1
    let st1 := pick.2
    match assoc st1.active_orders id with
    | none => ⟨none, 0, offset, st1⟩
    | some so =>
        let fill := uniformNat (rng st1.rng_index) 1 so.quantity % 2 ^ 32
        let st2 := { st1 with rng_index := st1.rng_index + 1 }
        if 1400 - offset < 23 then ⟨none, 1, offset, st2⟩
        else
          let newq := (so.quantity + 2 ^ 32 - fill) % 2 ^ 32
          if newq = 0 then
            ⟨some (.executeOrder id fill), 1, offset + 23,
              { st2 with
                active_orders := assocErase st2.active_orders id
                active_order_ids := st2.active_order_ids.filter (· ≠ id) }⟩
          else
            ⟨some (.executeOrder id fill), 1, offset + 23,
              { st2 with active_orders := (assocUpdate st2.active_orders id
                  fun w => { w with quantity := newq }) }⟩

def generate_replace_order (cfg : SimConfig) (rng : Nat → Nat) (st : SimState)
    (offset : Nat) : GenResult :=
  let pick := pick_random_active_order rng st
  if pick.1 = 0 then generate_add_order cfg rng pick.2 offset
  else
    let id := pick.1
    let st1 := pick.2
    match assoc st1.active_orders id with
    | none => ⟨none, 0, offset, st1⟩
    | some so =>
        let new_price := jitter_price so.price (rng st1.rng_index)
        let new_qty := uniformNat (rng (st1.rng_index + 1)) 10 1000
        let st2 := { st1 with rng_index := st1.rng_index + 2 }
        if 1400 - offset < 27 then ⟨none, 1, offset, st2⟩
        else
          ⟨some (.replaceOrder id new_price new_qty), 1, offset + 27,
            { st2 with active_orders := (assocUpdate st2.active_orders id
                fun w => { w with price := new_price, quantity := new_qty }) }⟩

def generate_trade_message (cfg : SimConfig) (rng : Nat → Nat) (st : SimState)
    (offset : Nat) : GenResult :=
  let sym := pick_random_symbol cfg (rng st.rng_index)
  let pr := price_ref st.current_prices sym
  let base := pr.1
  let qty := uniformNat (rng (st.rng_index + 1)) 10 500
  let buy := st.next_order_id
  let sell := st.next_order_id + 1
  let st1 := { st with rng_index := st.rng_index + 2
                       next_order_id := st.next_order_id + 2
                       current_prices := pr.2 }
  if 1400 - offset < 43 then ⟨none, 1, offset, st1⟩
  else
    let walk : Int := (uniformNat (rng st1.rng_index) 0 100 : Int) - 50
    ⟨some (.tradeMessage sym base qty buy sell), 1, offset + 43,
      { st1 with rng_index := st1.rng_index + 1
                 current_prices := assocSet st1.current_prices sym
                   (((base : Int) + walk).emod (2 ^ 32)).toNat }⟩

/-- One iteration of the batching loop body: draw the weighted type and
dispatch to the matching generate_* member. -/
def generate_event (cfg : SimConfig) (rng : Nat → Nat) (st : SimState)
    (offset : Nat) : GenResult :=
  let st0 := { st with rng_index := st.rng_index + 1 }
  match msgTypeOf (rng st.rng_index) with
  | 0 => generate_add_order cfg rng st0 offset
  | 1 => generate_cancel_order cfg rng st0 offset
  | 2 => generate_execute_order cfg rng st0 offset
  | 3 => generate_replace_order cfg rng st0 offset
  | _ => generate_trade_message cfg rng st0 offset

/-- The inner batching loop `while (offset + 64 < sizeof(buffer))` of
MarketSimulator::run.  `clock_idx` counts protocol-clock readings,
`break_now inner` is the outcome of the pacing comparison
`steady_clock::now() < next_send` after the inner-th event, and `fuel`
bounds the iterations (in the program the pacing deadline terminates the
loop).  Returns the records of the datagram with their header timestamps,
the final state, the clock position and the final offset. -/
def build_batch (cfg : SimConfig) (rng clock : Nat → Nat)
    (break_now : Nat → Bool) :
    SimState → Nat → Nat → Nat → Nat →
      List (ParsedMessage × Nat) × SimState × Nat × Nat
  | st, clock_idx, offset, _, 0 => ([], st, clock_idx, offset)
  | st, clock_idx, offset, inner, fuel + 1 =>
      if offset + 64 < 1400 then
        let g := generate_event cfg rng st offset
        let recs : List (ParsedMessage × Nat) :=
          match g.emitted with
          | none => []
          | some m => [(m, clock clock_idx)]
        let ci1 := clock_idx + g.clock_calls
        if break_now inner then (recs, g.state, ci1, g.offset)
        else
          let rest := build_batch cfg rng clock break_now g.state ci1 g.offset
            (inner + 1) fuel
          (recs ++ rest.1, rest.2.1, rest.2.2.1, rest.2.2.2)
      else ([], st, clock_idx, offset)

/-- The outer loop of MarketSimulator::run: one batch per tick, sending a
datagram whenever the batch wrote any bytes (`if (offset > 0) send`). -/
def run_batches (cfg : SimConfig) (rng clock : Nat → Nat)
    (break_now : Nat → Nat → Bool) (inner_fuel : Nat) :
    SimState → Nat → Nat → List (List (ParsedMessage × Nat))
  | _, _, 0 => []
  | st, clock_idx, ticks + 1 =>
      let b := build_batch cfg rng clock (break_now ticks) st clock_idx 0 0
        inner_fuel
      (if 0 < b.2.2.2 then [b.1] else []) ++
        run_batches cfg rng clock break_now inner_fuel b.2.1 b.2.2.1 ticks

/-- Constructor state: rng seeded (stream position 0), first order id 1,
empty inventory, current prices copied from the configuration. -/
def init_state (cfg : SimConfig) : SimState :=
  ⟨0, 1, [], [], cfg.initial_prices⟩

/-- MarketSimulator::run — the produced datagrams, each a list of records
paired with their header timestamps. -/
def run (cfg : SimConfig) (rng clock : Nat → Nat)
    (break_now : Nat → Nat → Bool) (inner_fuel ticks : Nat) :
    List (List (ParsedMessage × Nat)) :=
  run_batches cfg rng clock break_now inner_fuel (init_state cfg) 0 ticks

/-- Bytes of one sent datagram: the records encoded back to back. -/
def datagram_bytes (recs : List (ParsedMessage × Nat)) : List Nat :=
  (recs.map fun p => Encoder.encodeBytes p.1 p.2).flatten

end MarketSimulator

/-! ## Invariant vocabulary for the book engine

These definitions only name observations and predicates over the embedded
state; no behaviour lives here. -/

/-- The wire sizes the specification asserts for the five record types. -/
def specWireSize : ParsedMessage → Nat
  | .addOrder .. => 36
  | .cancelOrder .. => 19
  | .executeOrder .. => 23
  | .replaceOrder .. => 27
  | .tradeMessage .. => 43

/-- Total quantity stored at a price key, 0 when the level is absent. -/
def levelTotal (ls : List (Nat × PriceLevel)) (price : Nat) : Nat :=
  match assoc ls price with
  | none => 0
  | some l => l.total_quantity

/-- Every price level present on the side carries nonzero quantity. -/
def LevelsPos (ls : List (Nat × PriceLevel)) : Prop :=
  ∀ e ∈ ls, 0 < (e : Nat × PriceLevel).2.total_quantity

/-- Zero-quantity levels are absent from both sides of the book. -/
def OrderBook.ZeroFree (b : OrderBook) : Prop :=
  LevelsPos b.bids ∧ LevelsPos b.asks

/-- Zero-quantity levels are absent from every book of the engine. -/
def OrderBookManager.ZeroFree (m : OrderBookManager) : Prop :=
  ∀ e ∈ m.books, (e : Nat × OrderBook).2.ZeroFree

/-- The total at a price key on one side of a symbol's book (0 when the
book or the level is absent). -/
def OrderBookManager.bookLevelTotal (m : OrderBookManager)
    (sym side price : Nat) : Nat :=
  match m.get_book sym with
  | none => 0
  | some b => levelTotal (b.sideLevels side) price

/-- One book-engine operation, as dispatched by the book stage. -/
inductive BookOp where
  | add (id side sym price qty : Nat)
  | cancel (id : Nat)
  | exec (id fill : Nat)
  | replace (id new_price new_qty : Nat)

def OrderBookManager.applyOp (m : OrderBookManager) : BookOp → OrderBookManager
  | .add id side sym price qty => m.add_order id side sym price qty
  | .cancel id => m.cancel_order id
  | .exec id fill => m.execute_order id fill
  | .replace id p q => m.replace_order id p q

/-- The total that a replace's add step would find at the new price: the
touched side of the order's book after the removal of the old remaining
quantity (0 when the order or the book is absent). -/
def OrderBookManager.replaceTouchTotal (m : OrderBookManager)
    (id new_price : Nat) : Nat :=
  match m.store.find id with
  | none => 0
  | some o =>
      match m.get_book o.symbol with
      | none => 0
      | some b =>
          levelTotal
            (removeQtyLevels (b.sideLevels o.side) o.price
              o.remaining_quantity) new_price

/-- Side conditions under which an operation cannot mint a zero-quantity
level: quantities booked onto a level are positive, and the touched
level's uint32 total does not wrap.  Cancels and executes need nothing. -/
def OrderBookManager.OpOK (m : OrderBookManager) : BookOp → Prop
  | .add _ side sym price qty =>
      0 < qty ∧ m.bookLevelTotal sym side price + qty < 2 ^ 32
  | .cancel _ => True
  | .exec _ _ => True
  | .replace id new_price new_qty =>
      0 < new_qty ∧ m.replaceTouchTotal id new_price + new_qty < 2 ^ 32

def OrderBookManager.applyOps (m : OrderBookManager) : List BookOp →
    OrderBookManager
  | [] => m
  | op :: t => (m.applyOp op).applyOps t

/-- Every step of the trace satisfies its side condition in the state in
which it executes. -/
def OrderBookManager.TraceOK : OrderBookManager → List BookOp → Prop
  | _, [] => True
  | m, op :: t => m.OpOK op ∧ (m.applyOp op).TraceOK t

instance (ls : List (Nat × PriceLevel)) : Decidable (LevelsPos ls) := by
  unfold LevelsPos
  infer_instance

instance (b : OrderBook) : Decidable b.ZeroFree := by
  unfold OrderBook.ZeroFree
  infer_instance

instance (m : OrderBookManager) : Decidable m.ZeroFree := by
  unfold OrderBookManager.ZeroFree
  infer_instance

instance (m : OrderBookManager) (op : BookOp) : Decidable (m.OpOK op) := by
  cases op <;> unfold OrderBookManager.OpOK <;> infer_instance

instance instDecTraceOK : (m : OrderBookManager) → (ops : List BookOp) →
    Decidable (m.TraceOK ops)
  | _, [] => .isTrue trivial
  | m, op :: t =>
      have : Decidable ((m.applyOp op).TraceOK t) := instDecTraceOK _ t
      by unfold OrderBookManager.TraceOK; infer_instance

/-! ## Supporting lemmas -/

theorem toLE_length (n x : Nat) : (toLE n x).length = n := by
  induction n generalizing x with
  | zero => rfl
  | succ n ih => simp [toLE, ih]

theorem drop_toLE_append (n m x : Nat) (r : List Nat) :
    (toLE n x ++ r).drop (n + m) = r.drop m := by
  induction n generalizing x with
  | zero => simp [toLE]
  | succ n ih =>
    have : n + 1 + m = (n + m) + 1 := by omega
    simp only [toLE, List.cons_append, this, List.drop_succ_cons]
    exact ih (x / 256)

theorem drop_toLE (n x : Nat) (r : List Nat) :
    (toLE n x ++ r).drop n = r := by
  have h := drop_toLE_append n 0 x r
  simpa using h

theorem readLE_toLE_append (n x : Nat) (r : List Nat) :
    readLE n (toLE n x ++ r) = x % 256 ^ n := by
  induction n generalizing x with
  | zero => simp [toLE, readLE, Nat.mod_one]
  | succ n ih =>
    have hpow : (256 : Nat) ^ (n + 1) = 256 * 256 ^ n := by ring
    simp only [toLE, List.cons_append, readLE, List.append_eq]
    rw [ih (x / 256), hpow]
    have hmul := @Nat.mod_mul 256 (256 ^ n) x
    have hx : x % 256 < 256 := Nat.mod_lt _ (by omega)
    omega

theorem readLE_toLE (n x : Nat) (r : List Nat) (hx : x < 256 ^ n) :
    readLE n (toLE n x ++ r) = x := by
  rw [readLE_toLE_append, Nat.mod_eq_of_lt hx]

namespace Encoder

theorem decode_header_encodeBytes (m : ParsedMessage) (ts : Nat)
    (hts : ts < 2 ^ 64) (r : List Nat) :
    decode_header (encodeBytes m ts ++ r) =
      ⟨m.wireSize, m.typeByte, ts⟩ := by
  have hw : m.wireSize < 256 ^ 2 := by cases m <;> simp [ParsedMessage.wireSize]
  have hty : m.typeByte < 256 ^ 1 := by cases m <;> simp [ParsedMessage.typeByte]
  have hts256 : ts < 256 ^ 8 := by
    have : (256 : Nat) ^ 8 = 2 ^ 64 := by norm_num
    omega
  simp only [decode_header, encodeBytes, List.append_assoc]
  rw [readLE_toLE 2 _ _ hw]
  rw [show (2 : Nat) = 2 + 0 from rfl, drop_toLE_append, List.drop_zero]
  rw [readLE_toLE 1 _ _ hty]
  rw [show (3 : Nat) = 2 + 1 from rfl, drop_toLE_append]
  rw [show (1 : Nat) = 1 + 0 from rfl, drop_toLE_append, List.drop_zero]
  rw [readLE_toLE 8 _ _ hts256]

theorem drop11_encodeBytes (m : ParsedMessage) (ts : Nat) (r : List Nat) :
    (encodeBytes m ts ++ r).drop 11 = m.payloadBytes ++ r := by
  simp only [encodeBytes, List.append_assoc]
  rw [show (11 : Nat) = 2 + 9 from rfl, drop_toLE_append]
  rw [show (9 : Nat) = 1 + 8 from rfl, drop_toLE_append]
  rw [show (8 : Nat) = 8 + 0 from rfl, drop_toLE_append, List.drop_zero]

theorem parse_encodeBytes (m : ParsedMessage) (ts : Nat)
    (hm : m.WF) (hts : ts < 2 ^ 64) (r : List Nat) :
    parse (encodeBytes m ts ++ r) = m := by
  have h64 : (256 : Nat) ^ 8 = 2 ^ 64 := by norm_num
  have h32 : (256 : Nat) ^ 4 = 2 ^ 32 := by norm_num
  have h8 : (256 : Nat) ^ 1 = 2 ^ 8 := by norm_num
  have hdr := decode_header_encodeBytes m ts hts r
  have hdrop := drop11_encodeBytes m ts r
  cases m with
  | addOrder oid side sym price qty =>
    obtain ⟨h1, h2, h3, h4, h5⟩ := hm
    have b1 : oid < 256 ^ 8 := by rw [h64]; exact h1
    have b2 : side < 256 ^ 1 := by rw [h8]; exact h2
    have b3 : sym < 256 ^ 8 := by rw [h64]; exact h3
    have b4 : price < 256 ^ 4 := by rw [h32]; exact h4
    have b5 : qty < 256 ^ 4 := by rw [h32]; exact h5
    simp only [parse, hdr, hdrop, ParsedMessage.typeByte, ParsedMessage.payloadBytes,
      List.append_assoc]
    norm_num
    rw [readLE_toLE 8 oid _ b1]
    rw [show (8 : Nat) = 8 + 0 from rfl, drop_toLE_append, List.drop_zero]
    rw [readLE_toLE 1 side _ b2]
    rw [show (9 : Nat) = 8 + 1 from rfl, drop_toLE_append]
    rw [show (1 : Nat) = 1 + 0 from rfl, drop_toLE_append, List.drop_zero]
    rw [readLE_toLE 8 sym _ b3]
    rw [show (17 : Nat) = 8 + 9 from rfl, drop_toLE_append]
    rw [show (9 : Nat) = 1 + 8 from rfl, drop_toLE_append]
    rw [show (8 : Nat) = 8 + 0 from rfl, drop_toLE_append, List.drop_zero]
    rw [readLE_toLE 4 price _ b4]
    rw [show (21 : Nat) = 8 + 13 from rfl, drop_toLE_append]
    rw [show (13 : Nat) = 1 + 12 from rfl, drop_toLE_append]
    rw [show (12 : Nat) = 8 + 4 from rfl, drop_toLE_append]
    rw [show (4 : Nat) = 4 + 0 from rfl, drop_toLE_append, List.drop_zero]
    rw [readLE_toLE 4 qty _ b5]
    exact ⟨rfl, rfl, rfl, rfl, rfl⟩
  | cancelOrder oid =>
    have b1 : oid < 256 ^ 8 := by rw [h64]; exact hm
    simp only [parse, hdr, hdrop, ParsedMessage.typeByte, ParsedMessage.payloadBytes]
    norm_num
    rw [readLE_toLE 8 oid _ b1]
  | executeOrder oid q =>
    obtain ⟨h1, h2⟩ := hm
    have b1 : oid < 256 ^ 8 := by rw [h64]; exact h1
    have b2 : q < 256 ^ 4 := by rw [h32]; exact h2
    simp only [parse, hdr, hdrop, ParsedMessage.typeByte, ParsedMessage.payloadBytes,
      List.append_assoc]
    norm_num
    rw [readLE_toLE 8 oid _ b1]
    rw [show (8 : Nat) = 8 + 0 from rfl, drop_toLE_append, List.drop_zero]
    rw [readLE_toLE 4 q _ b2]
    exact ⟨rfl, rfl⟩
  | replaceOrder oid p q =>
    obtain ⟨h1, h2, h3⟩ := hm
    have b1 : oid < 256 ^ 8 := by rw [h64]; exact h1
    have b2 : p < 256 ^ 4 := by rw [h32]; exact h2
    have b3 : q < 256 ^ 4 := by rw [h32]; exact h3
    simp only [parse, hdr, hdrop, ParsedMessage.typeByte, ParsedMessage.payloadBytes,
      List.append_assoc]
    norm_num
    rw [readLE_toLE 8 oid _ b1]
    rw [show (8 : Nat) = 8 + 0 from rfl, drop_toLE_append, List.drop_zero]
    rw [readLE_toLE 4 p _ b2]
    rw [show (12 : Nat) = 8 + 4 from rfl, drop_toLE_append]
    rw [show (4 : Nat) = 4 + 0 from rfl, drop_toLE_append, List.drop_zero]
    rw [readLE_toLE 4 q _ b3]
    exact ⟨rfl, rfl, rfl⟩
  | tradeMessage sym price qty b s =>
    obtain ⟨h1, h2, h3, h4, h5⟩ := hm
    have b1 : sym < 256 ^ 8 := by rw [h64]; exact h1
    have b2 : price < 256 ^ 4 := by rw [h32]; exact h2
    have b3 : qty < 256 ^ 4 := by rw [h32]; exact h3
    have b4 : b < 256 ^ 8 := by rw [h64]; exact h4
    have b5 : s < 256 ^ 8 := by rw [h64]; exact h5
    simp only [parse, hdr, hdrop, ParsedMessage.typeByte, ParsedMessage.payloadBytes,
      List.append_assoc]
    norm_num
    rw [readLE_toLE 8 sym _ b1]
    rw [show (8 : Nat) = 8 + 0 from rfl, drop_toLE_append, List.drop_zero]
    rw [readLE_toLE 4 price _ b2]
    rw [show (12 : Nat) = 8 + 4 from rfl, drop_toLE_append]
    rw [show (4 : Nat) = 4 + 0 from rfl, drop_toLE_append, List.drop_zero]
    rw [readLE_toLE 4 qty _ b3]
    rw [show (16 : Nat) = 8 + 8 from rfl, drop_toLE_append]
    rw [show (8 : Nat) = 4 + 4 from rfl, drop_toLE_append]
    rw [show (4 : Nat) = 4 + 0 from rfl, drop_toLE_append, List.drop_zero]
    rw [readLE_toLE 8 b _ b4]
    rw [show (24 : Nat) = 8 + 16 from rfl, drop_toLE_append]
    rw [show (16 : Nat) = 4 + 12 from rfl, drop_toLE_append]
    rw [show (12 : Nat) = 4 + 8 from rfl, drop_toLE_append]
    rw [show (8 : Nat) = 8 + 0 from rfl, drop_toLE_append, List.drop_zero]
    rw [readLE_toLE 8 s _ b5]
    exact ⟨rfl, rfl, rfl, rfl, rfl⟩

theorem encodeBytes_length (m : ParsedMessage) (ts : Nat) :
    (encodeBytes m ts).length = m.wireSize := by
  cases m <;>
    simp [encodeBytes, ParsedMessage.payloadBytes, ParsedMessage.wireSize,
      toLE_length, List.length_append]

theorem drop_encodeBytes (m : ParsedMessage) (ts : Nat) (r : List Nat) :
    (encodeBytes m ts ++ r).drop m.wireSize = r := by
  rw [← encodeBytes_length m ts]
  exact List.drop_left _ _

end Encoder

namespace ParserStage

/-- One well-formed record at the head of the suffix is emitted and the
walk continues right behind it. -/
theorem walk_cons (receive_ts : Nat) (m : ParsedMessage) (ts : Nat)
    (hm : m.WF) (hts : ts < 2 ^ 64) (r : List Nat) :
    walk receive_ts (Encoder.encodeBytes m ts ++ r) =
      ⟨m, receive_ts, ts⟩ :: walk receive_ts r := by
  have hlen : (Encoder.encodeBytes m ts ++ r).length = m.wireSize + r.length := by
    simp [List.length_append, Encoder.encodeBytes_length]
  have hwire : 19 ≤ m.wireSize ∧ m.wireSize ≤ 43 := by
    cases m <;> simp [ParsedMessage.wireSize]
  have hdr := Encoder.decode_header_encodeBytes m ts hts r
  rw [walk.eq_def]
  rw [dif_pos (by omega)]
  simp only [hdr]
  rw [dif_neg (by omega)]
  rw [Encoder.parse_encodeBytes m ts hm hts r, Encoder.drop_encodeBytes]

/-- A suffix that starts with a malformed header (fewer than 11 bytes
remaining, a zero length field, or a length field exceeding the remaining
bytes) produces no further events. -/
theorem walk_bad (receive_ts : Nat) (bs : List Nat)
    (hbad : bs.length < 11 ∨ readLE 2 bs = 0 ∨ bs.length < readLE 2 bs) :
    walk receive_ts bs = [] := by
  rw [walk.eq_def]
  simp only [Encoder.decode_header]
  rcases hbad with h | h | h
  · rw [dif_neg (by omega)]
  · by_cases h11 : 11 ≤ bs.length
    · rw [dif_pos h11, dif_pos (Or.inl h)]
    · rw [dif_neg h11]
  · by_cases h11 : 11 ≤ bs.length
    · rw [dif_pos h11, dif_pos (Or.inr h)]
    · rw [dif_neg h11]

end ParserStage

theorem assoc_assocUpdate_self {α : Type} (ls : List (Nat × α)) (k : Nat)
    (f : α → α) : assoc (assocUpdate ls k f) k = (assoc ls k).map f := by
  induction ls with
  | nil => rfl
  | cons e t ih =>
    obtain ⟨k', v⟩ := e
    by_cases h : k' = k <;> simp [assocUpdate, assoc, h, ih]

theorem assoc_assocUpdate_ne {α : Type} (ls : List (Nat × α)) (k k' : Nat)
    (f : α → α) (hne : k' ≠ k) :
    assoc (assocUpdate ls k f) k' = assoc ls k' := by
  induction ls with
  | nil => rfl
  | cons e t ih =>
    obtain ⟨k0, v⟩ := e
    simp only [assocUpdate]
    by_cases h : k0 = k
    · subst h
      simp only [if_pos rfl, assoc]
      by_cases h2 : k0 = k'
      · exact absurd h2.symm hne
      · simp [if_neg h2]
    · simp only [if_neg h, assoc]
      by_cases h2 : k0 = k' <;> simp [h2, ih]

theorem mem_assocUpdate {α : Type} (ls : List (Nat × α)) (k : Nat)
    (f : α → α) (e : Nat × α) (he : e ∈ assocUpdate ls k f) :
    e ∈ ls ∨ ∃ v, assoc ls k = some v ∧ e = (k, f v) := by
  induction ls with
  | nil => simp [assocUpdate] at he
  | cons hd t ih =>
    obtain ⟨k0, v0⟩ := hd
    by_cases h : k0 = k
    · subst h
      rw [assocUpdate, if_pos rfl] at he
      rcases List.mem_cons.mp he with h1 | h1
      · exact Or.inr ⟨v0, by simp [assoc], h1⟩
      · exact Or.inl (List.mem_cons_of_mem _ h1)
    · rw [assocUpdate, if_neg h] at he
      rcases List.mem_cons.mp he with h1 | h1
      · exact Or.inl (by simp [h1])
      · rcases ih h1 with h2 | ⟨v, hv, hev⟩
        · exact Or.inl (List.mem_cons_of_mem _ h2)
        · exact Or.inr ⟨v, by simp [assoc, h, hv], hev⟩

theorem assoc_eq_none_of_keys {α : Type} (ls : List (Nat × α)) (k : Nat)
    (h : ∀ u ∈ ls, (u : Nat × α).1 ≠ k) : assoc ls k = none := by
  induction ls with
  | nil => rfl
  | cons e t ih =>
    obtain ⟨k0, v0⟩ := e
    have hk0 : k0 ≠ k := h _ (List.mem_cons_self _ _)
    rw [assoc, if_neg hk0]
    exact ih fun u hu => h u (List.mem_cons_of_mem _ hu)

theorem assoc_assocErase_self {α : Type} (ls : List (Nat × α)) (k : Nat)
    (hnd : (ls.map Prod.fst).Nodup) : assoc (assocErase ls k) k = none := by
  induction ls with
  | nil => rfl
  | cons e t ih =>
    obtain ⟨k0, v0⟩ := e
    simp only [List.map_cons, List.nodup_cons] at hnd
    by_cases h : k0 = k
    · subst h
      rw [assocErase, if_pos rfl]
      refine assoc_eq_none_of_keys t k0 fun u hu hk => ?_
      exact hnd.1 (hk ▸ List.mem_map_of_mem Prod.fst hu)
    · rw [assocErase, if_neg h, assoc, if_neg h]
      exact ih hnd.2

namespace SPSCQueue

theorem pushAll_from (k : Nat) (hk : 1 ≤ k) {α : Type} (items : List α)
    (q : SPSCQueue α) (hcap : q.capacity = 2 ^ k) (htail : q.tail = 0)
    (hhead : q.head + items.length ≤ 2 ^ k - 1) :
    ∃ q1, pushAll q items = some q1 ∧ q1.capacity = 2 ^ k ∧ q1.tail = 0 ∧
      q1.head = q.head + items.length := by
  induction items generalizing q with
  | nil => exact ⟨q, rfl, hcap, htail, by simp⟩
  | cons x xs ih =>
    have hpow : 1 ≤ 2 ^ k := Nat.one_le_two_pow
    have hmask : (q.head + 1) &&& (2 ^ k - 1) = q.head + 1 := by
      rw [Nat.and_pow_two_sub_one_eq_mod]
      exact Nat.mod_eq_of_lt (by simp at hhead; omega)
    have hnext : (q.head + 1) &&& (q.capacity - 1) ≠ q.tail := by
      rw [hcap, htail, hmask]
      omega
    rw [pushAll, try_push]
    simp only [if_neg hnext]
    have hstep := ih
      { q with buffer := fun i => if i = q.head then x else q.buffer i
               head := (q.head + 1) &&& (q.capacity - 1) }
      (by simpa using hcap) (by simpa using htail)
      (by simp only [hcap, hmask]; simp at hhead ⊢; omega)
    obtain ⟨q1, h1, h2, h3, h4⟩ := hstep
    refine ⟨q1, h1, h2, h3, ?_⟩
    simp only [h4, hcap, hmask, List.length_cons]
    omega

end SPSCQueue

theorem assoc_mem {α : Type} (ls : List (Nat × α)) (k : Nat) (v : α)
    (h : assoc ls k = some v) : (k, v) ∈ ls := by
  induction ls with
  | nil => exact absurd h (by simp [assoc])
  | cons e t ih =>
    obtain ⟨k0, v0⟩ := e
    by_cases hk : k0 = k
    · subst hk
      rw [assoc, if_pos rfl] at h
      exact (Option.some_inj.mp h) ▸ List.mem_cons_self _ _
    · rw [assoc, if_neg hk] at h
      exact List.mem_cons_of_mem _ (ih h)

theorem assoc_removeQtyLevels_ne (ls : List (Nat × PriceLevel))
    (price qty p' : Nat) (h : p' ≠ price) :
    assoc (removeQtyLevels ls price qty) p' = assoc ls p' := by
  induction ls with
  | nil => rfl
  | cons e t ih =>
    obtain ⟨p, l⟩ := e
    by_cases hp : p = price
    · subst hp
      by_cases hz : (if qty ≥ l.total_quantity then 0
          else l.total_quantity - qty) = 0
      · simp [removeQtyLevels, hz, assoc, Ne.symm h]
      · simp [removeQtyLevels, hz, assoc, Ne.symm h]
    · simp [removeQtyLevels, hp, assoc, ih]

theorem assoc_removeQtyLevels_self (ls : List (Nat × PriceLevel))
    (price qty : Nat) (hnd : (ls.map Prod.fst).Nodup) :
    assoc (removeQtyLevels ls price qty) price =
      match assoc ls price with
      | none => none
      | some l =>
          if l.total_quantity ≤ qty then none
          else some ⟨l.price, l.total_quantity - qty, l.order_count - 1⟩ := by
  induction ls with
  | nil => rfl
  | cons e t ih =>
    obtain ⟨p, l⟩ := e
    simp only [List.map_cons, List.nodup_cons] at hnd
    by_cases hp : p = price
    · subst hp
      have hnone : assoc t p = none :=
        assoc_eq_none_of_keys t p fun u hu hk =>
          hnd.1 (hk ▸ List.mem_map_of_mem Prod.fst hu)
      by_cases hle : l.total_quantity ≤ qty
      · have hz : (if qty ≥ l.total_quantity then 0
            else l.total_quantity - qty) = 0 := by split <;> omega
        simp [removeQtyLevels, hz, assoc, hnone, hle]
      · have hz : (if qty ≥ l.total_quantity then 0
            else l.total_quantity - qty) = l.total_quantity - qty := by
          split <;> omega
        have hz2 : ¬ l.total_quantity - qty = 0 := by omega
        have hcnt : (if l.order_count > 0 then l.order_count - 1
            else l.order_count) = l.order_count - 1 := by split <;> omega
        simp [removeQtyLevels, hz, hz2, hcnt, assoc, hle]
    · simp [removeQtyLevels, hp, assoc, ih hnd.2]

theorem assoc_addQtyLevels_ne (ls : List (Nat × PriceLevel))
    (price qty p' : Nat) (h : p' ≠ price) :
    assoc (addQtyLevels ls price qty) p' = assoc ls p' := by
  induction ls with
  | nil => simp [addQtyLevels, assoc, Ne.symm h]
  | cons e t ih =>
    obtain ⟨p, l⟩ := e
    by_cases h1 : price < p
    · simp [addQtyLevels, h1, assoc, Ne.symm h]
    · by_cases h2 : price = p
      · subst h2
        simp [addQtyLevels, h1, assoc, Ne.symm h]
      · simp [addQtyLevels, h1, h2, assoc, ih]

theorem assoc_addQtyLevels_self (ls : List (Nat × PriceLevel))
    (price qty : Nat)
    (hs : List.Pairwise (· < ·) (ls.map Prod.fst)) :
    assoc (addQtyLevels ls price qty) price =
      some (bumpLevel price qty
        (match assoc ls price with
         | none => ⟨0, 0, 0⟩
         | some l => l)) := by
  induction ls with
  | nil => simp [addQtyLevels, assoc]
  | cons e t ih =>
    obtain ⟨p, l⟩ := e
    simp only [List.map_cons, List.pairwise_cons] at hs
    by_cases h1 : price < p
    · have hnone : assoc t price = none := by
        refine assoc_eq_none_of_keys t price fun u hu hk => ?_
        have := hs.1 u.1 (List.mem_map_of_mem Prod.fst hu)
        omega
      have hne : ¬ p = price := by omega
      simp [addQtyLevels, h1, assoc, hnone, hne]
    · by_cases h2 : price = p
      · subst h2
        simp [addQtyLevels, h1, assoc]
      · have hne : ¬ p = price := fun hc => h2 hc.symm
        simp [addQtyLevels, h1, h2, assoc, hne, ih hs.2]

theorem keys_removeQtyLevels_sublist (ls : List (Nat × PriceLevel))
    (price qty : Nat) :
    ((removeQtyLevels ls price qty).map Prod.fst).Sublist
      (ls.map Prod.fst) := by
  induction ls with
  | nil => simp [removeQtyLevels]
  | cons e t ih =>
    obtain ⟨p, l⟩ := e
    rw [removeQtyLevels]
    by_cases hp : p = price
    · subst hp
      simp only [if_pos rfl]
      by_cases hz : (if qty ≥ l.total_quantity then 0
          else l.total_quantity - qty) = 0
      · simp only [if_pos hz, List.map_cons]
        exact List.sublist_cons_self _ _
      · simp only [if_neg hz, List.map_cons]
        exact List.Sublist.refl _
    · simp only [if_neg hp, List.map_cons]
      exact ih.cons₂ p

theorem pairwise_keys_removeQtyLevels (ls : List (Nat × PriceLevel))
    (price qty : Nat) (hs : List.Pairwise (· < ·) (ls.map Prod.fst)) :
    List.Pairwise (· < ·) ((removeQtyLevels ls price qty).map Prod.fst) :=
  hs.sublist (keys_removeQtyLevels_sublist ls price qty)

theorem LevelsPos_removeQtyLevels (ls : List (Nat × PriceLevel))
    (price qty : Nat) (h : LevelsPos ls) :
    LevelsPos (removeQtyLevels ls price qty) := by
  induction ls with
  | nil => intro e he; simp [removeQtyLevels] at he
  | cons hd t ih =>
    obtain ⟨p, l⟩ := hd
    have hhd : 0 < l.total_quantity := h _ (List.mem_cons_self _ _)
    have ht : LevelsPos t := fun e he => h e (List.mem_cons_of_mem _ he)
    rw [removeQtyLevels]
    by_cases hp : p = price
    · subst hp
      simp only [if_pos rfl]
      by_cases hz : (if qty ≥ l.total_quantity then 0
          else l.total_quantity - qty) = 0
      · rw [if_pos hz]; exact ht
      · rw [if_neg hz]
        intro e he
        rcases List.mem_cons.mp he with he | he
        · subst he; simpa using Nat.pos_of_ne_zero hz
        · exact ht e he
    · rw [if_neg hp]
      intro e he
      rcases List.mem_cons.mp he with he | he
      · subst he; exact hhd
      · exact ih ht e he

theorem LevelsPos_addQtyLevels (ls : List (Nat × PriceLevel))
    (price qty : Nat) (h : LevelsPos ls) (hq : 0 < qty)
    (hbound : levelTotal ls price + qty < 2 ^ 32) :
    LevelsPos (addQtyLevels ls price qty) := by
  induction ls with
  | nil =>
    intro e he
    simp only [addQtyLevels, List.mem_singleton] at he
    subst he
    simp only [bumpLevel]
    simp only [levelTotal, assoc] at hbound
    rw [Nat.zero_add, Nat.mod_eq_of_lt (by omega)]
    exact hq
  | cons hd t ih =>
    obtain ⟨p, l⟩ := hd
    have hhd : 0 < l.total_quantity := h _ (List.mem_cons_self _ _)
    have ht : LevelsPos t := fun e he => h e (List.mem_cons_of_mem _ he)
    rw [addQtyLevels]
    by_cases h1 : price < p
    · rw [if_pos h1]
      intro e he
      rcases List.mem_cons.mp he with he | he
      · subst he
        simp only [bumpLevel]
        rw [Nat.zero_add, Nat.mod_eq_of_lt (by omega)]
        exact hq
      · exact h e he
    · rw [if_neg h1]
      by_cases h2 : price = p
      · subst h2
        simp only [if_pos rfl]
        have hlt : levelTotal ((price, l) :: t) price = l.total_quantity := by
          simp [levelTotal, assoc]
        rw [hlt] at hbound
        intro e he
        rcases List.mem_cons.mp he with he | he
        · subst he
          simp only [bumpLevel]
          rw [Nat.mod_eq_of_lt (by omega)]
          omega
        · exact ht e he
      · rw [if_neg h2]
        have hne : ¬ p = price := fun hc => h2 hc.symm
        have hlt : levelTotal ((p, l) :: t) price = levelTotal t price := by
          simp [levelTotal, assoc, hne]
        rw [hlt] at hbound
        intro e he
        rcases List.mem_cons.mp he with he | he
        · subst he; exact hhd
        · exact ih ht hbound e he

theorem sideLevels_remove_level (b : OrderBook) (side price qty : Nat) :
    (b.remove_level_quantity side price qty).sideLevels side =
      removeQtyLevels (b.sideLevels side) price qty := by
  by_cases h : side = 1 <;>
    simp [OrderBook.remove_level_quantity, OrderBook.sideLevels, h]

theorem sideLevels_add_level (b : OrderBook) (side price qty : Nat) :
    (b.add_level_quantity side price qty).sideLevels side =
      addQtyLevels (b.sideLevels side) price qty := by
  by_cases h : side = 1 <;>
    simp [OrderBook.add_level_quantity, OrderBook.sideLevels, h]

theorem ZeroFree_add_level_quantity (b : OrderBook) (side price qty : Nat)
    (hb : b.ZeroFree) (hq : 0 < qty)
    (hbound : levelTotal (b.sideLevels side) price + qty < 2 ^ 32) :
    (b.add_level_quantity side price qty).ZeroFree := by
  obtain ⟨h1, h2⟩ := hb
  by_cases h : side = 1
  · rw [OrderBook.sideLevels, if_pos h] at hbound
    rw [OrderBook.add_level_quantity, if_pos h]
    exact ⟨LevelsPos_addQtyLevels _ _ _ h1 hq hbound, h2⟩
  · rw [OrderBook.sideLevels, if_neg h] at hbound
    rw [OrderBook.add_level_quantity, if_neg h]
    exact ⟨h1, LevelsPos_addQtyLevels _ _ _ h2 hq hbound⟩

theorem ZeroFree_remove_level_quantity (b : OrderBook) (side price qty : Nat)
    (hb : b.ZeroFree) : (b.remove_level_quantity side price qty).ZeroFree := by
  obtain ⟨h1, h2⟩ := hb
  by_cases h : side = 1
  · rw [OrderBook.remove_level_quantity, if_pos h]
    exact ⟨LevelsPos_removeQtyLevels _ _ _ h1, h2⟩
  · rw [OrderBook.remove_level_quantity, if_neg h]
    exact ⟨h1, LevelsPos_removeQtyLevels _ _ _ h2⟩

theorem ZeroFree_update_remove (m : OrderBookManager) (sym side price qty : Nat)
    (hm : m.ZeroFree) :
    ∀ e ∈ assocUpdate m.books sym
        (fun b => b.remove_level_quantity side price qty),
      (e : Nat × OrderBook).2.ZeroFree := by
  intro e he
  rcases mem_assocUpdate _ _ _ _ he with h1 | ⟨v, hv, hev⟩
  · exact hm e h1
  · rw [hev]
    exact ZeroFree_remove_level_quantity v side price qty
      (hm _ (assoc_mem _ _ _ hv))

theorem ZeroFree_applyOp (m : OrderBookManager) (op : BookOp)
    (hm : m.ZeroFree) (hop : m.OpOK op) : (m.applyOp op).ZeroFree := by
  cases op with
  | add id side sym price qty =>
    obtain ⟨hq, hbound⟩ := hop
    intro e he
    simp only [OrderBookManager.applyOp, OrderBookManager.add_order,
      OrderBookManager.withBook] at he
    cases hb : assoc m.books sym with
    | some b0 =>
      rw [hb] at he
      rcases mem_assocUpdate _ _ _ _ he with h1 | ⟨v, hv, hev⟩
      · exact hm e h1
      · have hvb : v = b0 := by
          rw [hb] at hv
          exact (Option.some_inj.mp hv).symm
        rw [hev]
        refine ZeroFree_add_level_quantity v side price qty
          (hm _ (assoc_mem _ _ _ hv)) hq ?_
        have hbb : m.bookLevelTotal sym side price =
            levelTotal (v.sideLevels side) price := by
          simp [OrderBookManager.bookLevelTotal, OrderBookManager.get_book,
            hb, hvb]
        rw [hbb] at hbound
        exact hbound
    | none =>
      rw [hb] at he
      rcases List.mem_append.mp he with h1 | h1
      · exact hm e h1
      · have he2 : e = (sym,
            OrderBook.add_level_quantity ⟨sym, [], []⟩ side price qty) := by
          simpa using h1
        rw [he2]
        refine ZeroFree_add_level_quantity ⟨sym, [], []⟩ side price qty
          ⟨by intro u hu; simp at hu, by intro u hu; simp at hu⟩ hq ?_
        have hz : levelTotal (OrderBook.sideLevels ⟨sym, [], []⟩ side) price
            = 0 := by
          by_cases h : side = 1 <;>
            simp [OrderBook.sideLevels, h, levelTotal, assoc]
        have hb0 : m.bookLevelTotal sym side price = 0 := by
          simp [OrderBookManager.bookLevelTotal, OrderBookManager.get_book, hb]
        rw [hz]
        omega
  | cancel id =>
    simp only [OrderBookManager.applyOp, OrderBookManager.cancel_order]
    cases hf : m.store.find id with
    | none => exact hm
    | some o =>
      exact ZeroFree_update_remove m o.symbol o.side o.price o.remaining_quantity hm
  | exec id fill =>
    simp only [OrderBookManager.applyOp, OrderBookManager.execute_order]
    cases hf : m.store.find id with
    | none => exact hm
    | some o =>
      dsimp only
      by_cases hge : fill ≥ o.remaining_quantity
      · rw [if_pos hge]
        exact ZeroFree_update_remove m o.symbol o.side o.price fill hm
      · rw [if_neg hge]
        exact ZeroFree_update_remove m o.symbol o.side o.price fill hm
  | replace id np nq =>
    obtain ⟨hq, hbound⟩ := hop
    simp only [OrderBookManager.applyOp, OrderBookManager.replace_order]
    cases hf : m.store.find id with
    | none => exact hm
    | some o =>
      intro e he
      simp only at he
      rcases mem_assocUpdate _ _ _ _ he with h1 | ⟨v, hv, hev⟩
      · exact hm e h1
      · rw [hev]
        have hvz : v.ZeroFree := hm _ (assoc_mem _ _ _ hv)
        refine ZeroFree_add_level_quantity _ o.side np nq
          (ZeroFree_remove_level_quantity v o.side o.price
            o.remaining_quantity hvz) hq ?_
        rw [sideLevels_remove_level]
        have htouch : m.replaceTouchTotal id np =
            levelTotal (removeQtyLevels (v.sideLevels o.side) o.price
              o.remaining_quantity) np := by
          simp [OrderBookManager.replaceTouchTotal,
            OrderBookManager.get_book, hf, hv]
        omega

theorem ZeroFree_empty : OrderBookManager.empty.ZeroFree := by
  intro e he
  simp [OrderBookManager.empty] at he

theorem ZeroFree_applyOps (ops : List BookOp) :
    ∀ m : OrderBookManager, m.ZeroFree → m.TraceOK ops →
      (m.applyOps ops).ZeroFree := by
  induction ops with
  | nil => intro m hm _; exact hm
  | cons op t ih =>
    intro m hm hok
    rw [OrderBookManager.TraceOK] at hok
    exact ih _ (ZeroFree_applyOp m op hm hok.1) hok.2

/-! ## Claim theorems -/

/-- C1: for every record type, every value x with in-range fields, and
every timestamp ts, encoding x with ts into a buffer of capacity at least
the type's wire size succeeds, parsing the written bytes returns a record
equal field-for-field to x, the decoded header timestamp equals ts, and
the written header length field equals the type's fixed wire size (36 for
AddOrder, 19 for CancelOrder, 23 for ExecuteOrder, 27 for ReplaceOrder,
43 for TradeMessage). -/
theorem C1_encode_parse_roundtrip (m : ParsedMessage) (ts buffer_size : Nat)
    (hm : m.WF) (hts : ts < 2 ^ 64) (hcap : m.wireSize ≤ buffer_size) :
    Encoder.encode m ts buffer_size = some (Encoder.encodeBytes m ts) ∧
    Encoder.parse (Encoder.encodeBytes m ts) = m ∧
    (Encoder.decode_header (Encoder.encodeBytes m ts)).timestamp = ts ∧
    (Encoder.decode_header (Encoder.encodeBytes m ts)).message_length =
      m.wireSize ∧
    m.wireSize = specWireSize m := by
  have hp := Encoder.parse_encodeBytes m ts hm hts []
  have hh := Encoder.decode_header_encodeBytes m ts hts []
  rw [List.append_nil] at hp hh
  refine ⟨?_, hp, ?_, ?_, ?_⟩
  · rw [Encoder.encode, if_neg (by omega)]
  · rw [hh]
  · rw [hh]
  · cases m <;> rfl

theorem C1_encode_parse_roundtrip_witness :
    (ParsedMessage.addOrder 12345 1 1280328001 1850500 300).WF ∧
    Encoder.parse (Encoder.encodeBytes
        (ParsedMessage.addOrder 12345 1 1280328001 1850500 300) 77) =
      ParsedMessage.addOrder 12345 1 1280328001 1850500 300 :=
  ⟨by decide,
    (C1_encode_parse_roundtrip
        (ParsedMessage.addOrder 12345 1 1280328001 1850500 300) 77 1500
        (by decide) (by decide) (by decide)).2.1⟩

/-- C2 counterexample: parsing a record whose header type byte is 90
(none of A, X, E, R, T) does not produce an UnknownType error — the
switch's default branch returns a value-initialized AddOrder record, i.e.
a record of one of the five record types, refuting the claim. -/
theorem C2_unknown_tag_counterexample :
    Encoder.parse
        [19, 0, 90, 0, 0, 0, 0, 0, 0, 0, 0, 0, 0, 0, 0, 0, 0, 0, 0] =
      ParsedMessage.addOrder 0 0 0 0 0 := by decide

/-- C2 amended: for every buffer positioned at a record whose header type
byte is none of A (65), X (88), E (69), R (82), T (84), Encoder::parse
yields a default-constructed AddOrder record with all fields zero; no
UnknownType error value exists in the decoder. -/
theorem C2_unknown_tag_default_addOrder (bs : List Nat)
    (h : (Encoder.decode_header bs).message_type ∉
      ([65, 88, 69, 82, 84] : List Nat)) :
    Encoder.parse bs = ParsedMessage.addOrder 0 0 0 0 0 := by
  simp only [List.mem_cons, not_or] at h
  obtain ⟨h1, h2, h3, h4, h5, -⟩ := h
  simp [Encoder.parse, h1, h2, h3, h4, h5]

theorem C2_unknown_tag_default_addOrder_witness :
    ((Encoder.decode_header
        [19, 0, 90, 0, 0, 0, 0, 0, 0, 0, 0, 0, 0, 0, 0, 0, 0, 0, 0]
      ).message_type ∉ ([65, 88, 69, 82, 84] : List Nat)) ∧
    Encoder.parse
        [19, 0, 90, 0, 0, 0, 0, 0, 0, 0, 0, 0, 0, 0, 0, 0, 0, 0, 0] =
      ParsedMessage.addOrder 0 0 0 0 0 :=
  ⟨by decide, C2_unknown_tag_default_addOrder _ (by decide)⟩

/-- C4 evaluation at the failing input: with order id 1 live in the store
(symbol key 100, Buy, price 1850000, quantity 100), processing a
CancelOrder, ExecuteOrder or ReplaceOrder for that id emits no BookUpdate
at all — only the AddOrder branch of BookStage::process_message calls
emit_book_update (last conjunct), contradicting the claim that each such
message emits exactly one update. -/
theorem C4_no_bookupdate_for_cancel_execute_replace :
    (OrderBookManager.empty.add_order 1 1 100 1850000 100).store.find 1 =
      some ⟨1, 1, 100, 1850000, 100⟩ ∧
    (BookStage.process_message
        (OrderBookManager.empty.add_order 1 1 100 1850000 100)
        ⟨ParsedMessage.cancelOrder 1, 5, 6⟩ 7).2 = [] ∧
    (BookStage.process_message
        (OrderBookManager.empty.add_order 1 1 100 1850000 100)
        ⟨ParsedMessage.executeOrder 1 40, 5, 6⟩ 7).2 = [] ∧
    (BookStage.process_message
        (OrderBookManager.empty.add_order 1 1 100 1850000 100)
        ⟨ParsedMessage.replaceOrder 1 1860000 200, 5, 6⟩ 7).2 = [] ∧
    (BookStage.process_message OrderBookManager.empty
        ⟨ParsedMessage.addOrder 1 1 100 1850000 100, 5, 6⟩ 7).2.length = 1 := by
  decide

/-- C6: cancel_order, execute_order and replace_order of an order id that
is not present in the order store leave the book-engine state (order store
and every per-symbol book, hence every best-bid/best-ask query) unchanged;
in particular a replace of a missing id creates no order. -/
theorem C6_unknown_id_noop (m : OrderBookManager) (id fill np nq : Nat)
    (h : m.store.find id = none) :
    m.cancel_order id = m ∧ m.execute_order id fill = m ∧
      m.replace_order id np nq = m := by
  refine ⟨?_, ?_, ?_⟩ <;>
    simp [OrderBookManager.cancel_order, OrderBookManager.execute_order,
      OrderBookManager.replace_order, h]

theorem C6_unknown_id_noop_witness :
    OrderStore.find OrderBookManager.empty.store 5 = none ∧
    (OrderBookManager.empty.cancel_order 5 = OrderBookManager.empty ∧
      OrderBookManager.empty.execute_order 5 3 = OrderBookManager.empty ∧
      OrderBookManager.empty.replace_order 5 7 9 = OrderBookManager.empty) :=
  ⟨by decide, C6_unknown_id_noop OrderBookManager.empty 5 3 7 9 (by decide)⟩

/-- C9: for every SPSC queue of capacity 2^k (k ≥ 1) starting empty, a
sequence of 2^k - 1 consecutive try_push calls all return true, and the
next try_push with no intervening pop returns false. -/
theorem C9_queue_capacity {α : Type} (fill x : α) (k : Nat) (hk : 1 ≤ k)
    (items : List α) (hlen : items.length = 2 ^ k - 1) :
    ∃ q1, SPSCQueue.pushAll (SPSCQueue.init α (2 ^ k) fill) items = some q1 ∧
      SPSCQueue.try_push q1 x = none := by
  have hone : 1 ≤ 2 ^ k := Nat.one_le_two_pow
  obtain ⟨q1, h1, hcap, htail, hhead⟩ :=
    SPSCQueue.pushAll_from k hk items (SPSCQueue.init α (2 ^ k) fill) rfl rfl
      (by simp [SPSCQueue.init, hlen])
  refine ⟨q1, h1, ?_⟩
  have hhead1 : q1.head = 2 ^ k - 1 := by
    rw [hhead, hlen]
    simp [SPSCQueue.init]
  have hnext : (q1.head + 1) &&& (q1.capacity - 1) = 0 := by
    rw [hcap, hhead1, Nat.and_pow_two_sub_one_eq_mod]
    have h2 : 2 ^ k - 1 + 1 = 2 ^ k := by omega
    rw [h2, Nat.mod_self]
  simp [SPSCQueue.try_push, hnext, htail]

/-- C3 counterexample: with two orders of 100 shares each at the same
price (level total 200) and order 1 having remaining quantity r = 100, a
fill of f = 150 ≥ r removes 150 from the level — the level drops from 200
to 50, not to 200 − r = 100 as the claim ("removes exactly r, not f")
asserts.  Order 1 is erased. -/
theorem C3_execute_overfill_counterexample :
    ((OrderBookManager.empty.add_order 1 1 100 1850000 100).add_order 2 1 100
        1850000 100).store.find 1 = some ⟨1, 1, 100, 1850000, 100⟩ ∧
    (((OrderBookManager.empty.add_order 1 1 100 1850000 100).add_order 2 1 100
        1850000 100).get_book 100).map OrderBook.best_bid_quantity =
      some 200 ∧
    ((((OrderBookManager.empty.add_order 1 1 100 1850000 100).add_order 2 1
        100 1850000 100).execute_order 1 150).get_book 100).map
      OrderBook.best_bid_quantity = some 50 ∧
    (((OrderBookManager.empty.add_order 1 1 100 1850000 100).add_order 2 1 100
        1850000 100).execute_order 1 150).store.find 1 = none := by
  decide

/-- C3 amended: for every book-engine state containing a live order with
remaining quantity r at price p, and every fill f ≥ r, execute_order
passes f (not r) to remove_level_quantity: the level at p loses
min(f, total) — it keeps total − f when f < total and is deleted when
total ≤ f — and the order is erased from the store.  When the order is
alone at its level (total = r) exactly r is removed and the level is
deleted. -/
theorem C3_execute_full_fill (m : OrderBookManager) (id f : Nat) (o : Order)
    (b : OrderBook) (L : PriceLevel)
    (hfind : m.store.find id = some o)
    (hf : o.remaining_quantity ≤ f)
    (hnds : (m.store.map Prod.fst).Nodup)
    (hbook : m.get_book o.symbol = some b)
    (hndl : ((b.sideLevels o.side).map Prod.fst).Nodup)
    (hlvl : assoc (b.sideLevels o.side) o.price = some L) :
    (m.execute_order id f).store.find id = none ∧
    ∃ b', (m.execute_order id f).get_book o.symbol = some b' ∧
      assoc (b'.sideLevels o.side) o.price =
        (if L.total_quantity ≤ f then none
         else some ⟨L.price, L.total_quantity - f, L.order_count - 1⟩) := by
  have hge : f ≥ o.remaining_quantity := hf
  have hstep : m.execute_order id f =
      { store := m.store.erase id
        books := assocUpdate m.books o.symbol fun b0 =>
          b0.remove_level_quantity o.side o.price f } := by
    simp [OrderBookManager.execute_order, hfind, hge]
  rw [hstep]
  refine ⟨assoc_assocErase_self _ _ hnds,
    b.remove_level_quantity o.side o.price f, ?_, ?_⟩
  · show assoc (assocUpdate m.books o.symbol _) o.symbol = _
    rw [assoc_assocUpdate_self, show assoc m.books o.symbol = some b from hbook]
    rfl
  · rw [sideLevels_remove_level, assoc_removeQtyLevels_self _ _ _ hndl, hlvl]

theorem C3_execute_full_fill_witness :
    (((OrderBookManager.empty.add_order 1 1 100 1850000 100).add_order 2 1 100
        1850000 100).store.find 1 = some ⟨1, 1, 100, 1850000, 100⟩) ∧
    ((((OrderBookManager.empty.add_order 1 1 100 1850000 100).add_order 2 1
        100 1850000 100).execute_order 1 150).store.find 1 = none ∧
      ∃ b', (((OrderBookManager.empty.add_order 1 1 100 1850000 100).add_order
          2 1 100 1850000 100).execute_order 1 150).get_book 100 = some b' ∧
        assoc (b'.sideLevels 1) 1850000 = some ⟨1850000, 50, 1⟩) :=
  ⟨by decide, by
    simpa using C3_execute_full_fill
      ((OrderBookManager.empty.add_order 1 1 100 1850000 100).add_order 2 1
        100 1850000 100) 1 150 ⟨1, 1, 100, 1850000, 100⟩
      ⟨100, [(1850000, ⟨1850000, 200, 2⟩)], []⟩ ⟨1850000, 200, 2⟩
      (by decide) (by decide) (by decide) (by decide) (by decide) (by decide)⟩

/-- C7: for every live order with remaining quantity r at price p on side
s, replace_order(id, new_price, new_qty) charges r (the stored remaining
quantity, with remove_level_quantity's clamp-and-delete semantics) off the
level at p, books new_qty onto the level at new_price via
add_level_quantity, and rewrites the stored order in place to price
new_price and remaining quantity new_qty.  When new_price ≠ p the two
levels are characterized separately; when new_price = p (a quantity-only
replace) the level at p holds new_qty booked on top of what the removal of
r left there (the clamped remainder, or a fresh zero level when the
removal deleted it). -/
theorem C7_replace_semantics (m : OrderBookManager) (id np nq : Nat)
    (o : Order) (b : OrderBook)
    (hfind : m.store.find id = some o)
    (hbook : m.get_book o.symbol = some b)
    (hs : List.Pairwise (· < ·) ((b.sideLevels o.side).map Prod.fst)) :
    (m.replace_order id np nq).store.find id =
      some { o with price := np, remaining_quantity := nq } ∧
    ∃ b', (m.replace_order id np nq).get_book o.symbol = some b' ∧
      (np ≠ o.price →
        assoc (b'.sideLevels o.side) o.price =
          (match assoc (b.sideLevels o.side) o.price with
           | none => none
           | some L =>
               if L.total_quantity ≤ o.remaining_quantity then none
               else some ⟨L.price, L.total_quantity - o.remaining_quantity,
                 L.order_count - 1⟩)) ∧
      (np ≠ o.price →
        assoc (b'.sideLevels o.side) np =
          some (bumpLevel np nq
            (match assoc (b.sideLevels o.side) np with
             | none => ⟨0, 0, 0⟩
             | some L => L))) ∧
      (np = o.price →
        assoc (b'.sideLevels o.side) np =
          some (bumpLevel np nq
            (match assoc (b.sideLevels o.side) o.price with
             | none => ⟨0, 0, 0⟩
             | some L =>
                 if L.total_quantity ≤ o.remaining_quantity then ⟨0, 0, 0⟩
                 else ⟨L.price, L.total_quantity - o.remaining_quantity,
                   L.order_count - 1⟩))) := by
  have hndl : ((b.sideLevels o.side).map Prod.fst).Nodup :=
    hs.imp fun h => Nat.ne_of_lt h
  have hstep : m.replace_order id np nq =
      { store := assocUpdate m.store id fun w =>
          { w with price := np, remaining_quantity := nq }
        books := assocUpdate m.books o.symbol fun b0 =>
          (b0.remove_level_quantity o.side o.price o.remaining_quantity
            ).add_level_quantity o.side np nq } := by
    simp [OrderBookManager.replace_order, hfind]
  rw [hstep]
  refine ⟨?_, (b.remove_level_quantity o.side o.price o.remaining_quantity
      ).add_level_quantity o.side np nq, ?_, ?_, ?_, ?_⟩
  · show assoc (assocUpdate m.store id _) id = _
    rw [assoc_assocUpdate_self, show assoc m.store id = some o from hfind]
    rfl
  · show assoc (assocUpdate m.books o.symbol _) o.symbol = _
    rw [assoc_assocUpdate_self, show assoc m.books o.symbol = some b from hbook]
    rfl
  · intro hnp
    rw [sideLevels_add_level, sideLevels_remove_level,
      assoc_addQtyLevels_ne _ _ _ _ (Ne.symm hnp),
      assoc_removeQtyLevels_self _ _ _ hndl]
  · intro hnp
    rw [sideLevels_add_level, sideLevels_remove_level,
      assoc_addQtyLevels_self _ _ _
        (pairwise_keys_removeQtyLevels _ _ _ hs),
      assoc_removeQtyLevels_ne _ _ _ _ hnp]
  · intro hnp
    subst hnp
    rw [sideLevels_add_level, sideLevels_remove_level,
      assoc_addQtyLevels_self _ _ _
        (pairwise_keys_removeQtyLevels _ _ _ hs),
      assoc_removeQtyLevels_self _ _ _ hndl]
    cases hL : assoc (b.sideLevels o.side) o.price with
    | none => rfl
    | some L =>
      by_cases hle : L.total_quantity ≤ o.remaining_quantity
      · simp [hle]
      · simp [hle]

theorem C7_replace_semantics_witness :
    ((OrderBookManager.empty.add_order 1 1 100 1850000 100).store.find 1 =
      some ⟨1, 1, 100, 1850000, 100⟩) ∧
    (((OrderBookManager.empty.add_order 1 1 100 1850000 100).replace_order 1
        1860000 200).store.find 1 = some ⟨1, 1, 100, 1860000, 200⟩ ∧
      ∃ b', ((OrderBookManager.empty.add_order 1 1 100 1850000 100
          ).replace_order 1 1860000 200).get_book 100 = some b' ∧
        assoc (b'.sideLevels 1) 1850000 = none ∧
        assoc (b'.sideLevels 1) 1860000 = some ⟨1860000, 200, 1⟩) :=
  ⟨by decide, by
    simpa using C7_replace_semantics
      (OrderBookManager.empty.add_order 1 1 100 1850000 100)
      1 1860000 200 ⟨1, 1, 100, 1850000, 100⟩
      ⟨100, [(1850000, ⟨1850000, 100, 1⟩)], []⟩
      (by decide) (by decide) (by decide)⟩

theorem C9_queue_capacity_witness :
    1 ≤ 2 ∧ ([10, 20, 30] : List Nat).length = 2 ^ 2 - 1 ∧
    ∃ q1, SPSCQueue.pushAll (SPSCQueue.init Nat (2 ^ 2) 0) [10, 20, 30] =
        some q1 ∧ SPSCQueue.try_push q1 9 = none :=
  ⟨by decide, by decide,
    C9_queue_capacity 0 9 2 (by decide) [10, 20, 30] (by decide)⟩

/-- C5 counterexample: an 11-byte datagram whose header carries length
field 5 (less than 11).  The claim says the parser emits no event for that
record and abandons the datagram; the code only rejects length 0 or length
exceeding the remaining bytes, so it emits one event (a default AddOrder,
type byte 90 being unknown) and advances 5 bytes. -/
theorem C5_short_length_counterexample :
    ParserStage.walk 0 [5, 0, 90, 0, 0, 0, 0, 0, 0, 0, 0] =
      [⟨ParsedMessage.addOrder 0 0 0 0 0, 0, 0⟩] := by
  have h2 : ParserStage.walk 0 [0, 0, 0, 0, 0, 0] = [] :=
    ParserStage.walk_bad 0 _ (Or.inl (by norm_num))
  rw [ParserStage.walk.eq_def]
  norm_num [Encoder.decode_header, readLE, Encoder.parse, h2]

/-- C5 amended: the parser walks records back-to-back; it abandons the
rest of the datagram on a header with length field 0, or with length field
exceeding the remaining bytes, or when fewer than 11 bytes remain for the
header — emitting no event for that record — and every well-formed record
preceding the bad header is still emitted, in order.  (Length fields in
1..10 are not rejected.) -/
theorem C5_parser_walk_prefix (receive_ts : Nat)
    (msgs : List (ParsedMessage × Nat))
    (hwf : ∀ p ∈ msgs, (p : ParsedMessage × Nat).1.WF ∧ p.2 < 2 ^ 64)
    (tail : List Nat)
    (htail : tail.length < 11 ∨ readLE 2 tail = 0 ∨
      tail.length < readLE 2 tail) :
    ParserStage.walk receive_ts
        ((msgs.map fun p => Encoder.encodeBytes p.1 p.2).flatten ++ tail) =
      msgs.map fun p => ⟨p.1, receive_ts, p.2⟩ := by
  induction msgs with
  | nil =>
    simp only [List.map_nil, List.flatten_nil, List.nil_append]
    exact ParserStage.walk_bad receive_ts tail htail
  | cons p t ih =>
    obtain ⟨m, ts⟩ := p
    have hp := hwf (m, ts) (List.mem_cons_self _ _)
    simp only [List.map_cons, List.flatten_cons, List.append_assoc]
    rw [ParserStage.walk_cons receive_ts m ts hp.1 hp.2]
    rw [ih fun q hq => hwf q (List.mem_cons_of_mem _ hq)]

theorem C5_parser_walk_prefix_witness :
    (([7, 7, 7] : List Nat).length < 11 ∨ readLE 2 [7, 7, 7] = 0 ∨
      ([7, 7, 7] : List Nat).length < readLE 2 [7, 7, 7]) ∧
    ParserStage.walk 9
        (([(ParsedMessage.addOrder 1 1 100 1850000 100, (5 : Nat)),
            (ParsedMessage.cancelOrder 1, 6)].map
          fun p => Encoder.encodeBytes p.1 p.2).flatten ++ [7, 7, 7]) =
      [⟨ParsedMessage.addOrder 1 1 100 1850000 100, 9, 5⟩,
        ⟨ParsedMessage.cancelOrder 1, 9, 6⟩] :=
  ⟨by decide, by
    simpa using C5_parser_walk_prefix 9
      [(ParsedMessage.addOrder 1 1 100 1850000 100, 5),
        (ParsedMessage.cancelOrder 1, 6)] (by decide) [7, 7, 7] (by decide)⟩

/-- C8 counterexample: add_order with quantity 0 creates a price level
with total_quantity 0 that best-bid queries observe — best_bid_price
returns the level's price while best_bid_quantity returns 0, refuting the
claim for sequences that include zero-quantity operations. -/
theorem C8_zero_qty_counterexample :
    (OrderBookManager.empty.add_order 1 1 100 1850000 0).get_book 100 =
      some ⟨100, [(1850000, ⟨1850000, 0, 1⟩)], []⟩ ∧
    OrderBook.best_bid_price ⟨100, [(1850000, ⟨1850000, 0, 1⟩)], []⟩ =
      1850000 ∧
    OrderBook.best_bid_quantity ⟨100, [(1850000, ⟨1850000, 0, 1⟩)], []⟩ =
      0 := by
  decide

/-- C8 amended: after every sequence of add_order, cancel_order,
execute_order and replace_order operations applied to the initially empty
book engine in which each add_order and replace_order books a positive
quantity that does not overflow the touched level's uint32 total, no
best-bid or best-ask query observes a price level with total_quantity 0:
on every non-empty side the best quantity is positive (a level whose total
drops to zero is deleted). -/
theorem C8_no_zero_level_observable (ops : List BookOp)
    (hok : OrderBookManager.empty.TraceOK ops) (sym : Nat) (b : OrderBook)
    (hb : (OrderBookManager.empty.applyOps ops).get_book sym = some b) :
    (b.bids ≠ [] → 0 < b.best_bid_quantity) ∧
    (b.asks ≠ [] → 0 < b.best_ask_quantity) := by
  have hz : (OrderBookManager.empty.applyOps ops).ZeroFree :=
    ZeroFree_applyOps ops _ ZeroFree_empty hok
  have hbz : b.ZeroFree := hz _ (assoc_mem _ _ _ hb)
  constructor
  · intro hne
    rw [OrderBook.best_bid_quantity, List.getLast?_eq_getLast_of_ne_nil hne]
    exact hbz.1 _ (List.getLast_mem hne)
  · intro hne
    cases hA : b.asks with
    | nil => exact absurd hA hne
    | cons a t =>
      rw [OrderBook.best_ask_quantity, hA]
      exact hbz.2 a (hA ▸ List.mem_cons_self a t)

theorem C8_no_zero_level_observable_witness :
    OrderBookManager.empty.TraceOK [BookOp.add 1 1 100 1850000 100] ∧
    ((OrderBookManager.empty.applyOps
        [BookOp.add 1 1 100 1850000 100]).get_book 100 =
      some ⟨100, [(1850000, ⟨1850000, 100, 1⟩)], []⟩) ∧
    ((OrderBook.bids ⟨100, [(1850000, ⟨1850000, 100, 1⟩)], []⟩ ≠ [] →
        0 < OrderBook.best_bid_quantity
          ⟨100, [(1850000, ⟨1850000, 100, 1⟩)], []⟩) ∧
      (OrderBook.asks ⟨100, [(1850000, ⟨1850000, 100, 1⟩)], []⟩ ≠ [] →
        0 < OrderBook.best_ask_quantity
          ⟨100, [(1850000, ⟨1850000, 100, 1⟩)], []⟩)) :=
  ⟨by decide, by decide,
    C8_no_zero_level_observable [BookOp.add 1 1 100 1850000 100] (by decide)
      100 ⟨100, [(1850000, ⟨1850000, 100, 1⟩)], []⟩ (by decide)⟩

theorem build_batch_clock_irrelevant (cfg : SimConfig) (rng : Nat → Nat)
    (break_now : Nat → Bool) (clock1 clock2 : Nat → Nat) (fuel : Nat) :
    ∀ (st : SimState) (clock_idx offset inner : Nat),
      (MarketSimulator.build_batch cfg rng clock1 break_now st clock_idx
          offset inner fuel).1.map Prod.fst =
        (MarketSimulator.build_batch cfg rng clock2 break_now st clock_idx
          offset inner fuel).1.map Prod.fst ∧
      (MarketSimulator.build_batch cfg rng clock1 break_now st clock_idx
          offset inner fuel).2 =
        (MarketSimulator.build_batch cfg rng clock2 break_now st clock_idx
          offset inner fuel).2 := by
  induction fuel with
  | zero => intro st ci off inner; exact ⟨rfl, rfl⟩
  | succ fuel ih =>
    intro st ci off inner
    simp only [MarketSimulator.build_batch]
    by_cases hguard : off + 64 < 1400
    · simp only [if_pos hguard]
      obtain ⟨ih1, ih2⟩ := ih (MarketSimulator.generate_event cfg rng st
          off).state
        (ci + (MarketSimulator.generate_event cfg rng st off).clock_calls)
        (MarketSimulator.generate_event cfg rng st off).offset (inner + 1)
      cases hbreak : break_now inner <;>
        cases hemit : (MarketSimulator.generate_event cfg rng st off).emitted <;>
          simp [hbreak, hemit, ih1, ih2]
    · simp only [if_neg hguard]
      exact ⟨trivial, trivial⟩

theorem run_batches_clock_irrelevant (cfg : SimConfig) (rng : Nat → Nat)
    (break_now : Nat → Nat → Bool) (inner_fuel : Nat)
    (clock1 clock2 : Nat → Nat) (ticks : Nat) :
    ∀ (st : SimState) (clock_idx : Nat),
      (MarketSimulator.run_batches cfg rng clock1 break_now inner_fuel st
          clock_idx ticks).map (List.map Prod.fst) =
        (MarketSimulator.run_batches cfg rng clock2 break_now inner_fuel st
          clock_idx ticks).map (List.map Prod.fst) := by
  induction ticks with
  | zero => intro st ci; rfl
  | succ ticks ih =>
    intro st ci
    simp only [MarketSimulator.run_batches]
    obtain ⟨h1, h2⟩ := build_batch_clock_irrelevant cfg rng (break_now ticks)
      clock1 clock2 inner_fuel st ci 0 0
    rw [h2]
    by_cases hpos : 0 < (MarketSimulator.build_batch cfg rng clock2
        (break_now ticks) st ci 0 0 inner_fuel).2.2.2
    · simp [hpos, h1, ih]
    · simp [hpos, ih]

/-- C10 counterexample: the SimConfig and the seed do not alone determine
the datagram stream.  Two runs with the same configuration (one symbol,
seed 42, one initial price), the same seed-determined draw stream, and
even the same protocol-timestamp clock, but different steady-clock pacing
outcomes (one run's pacing comparison breaks the batch after every event,
the other's never does within the buffer guard) produce different
datagram sequences — different record counts and grouping — even after
discarding header timestamps. -/
theorem C10_pacing_counterexample :
    (MarketSimulator.run ⟨[100], 1, 1, 42, [(100, 1850000)]⟩ (fun _ => 0)
        (fun _ => 0) (fun _ _ => true) 2 1).map (List.map Prod.fst) ≠
      (MarketSimulator.run ⟨[100], 1, 1, 42, [(100, 1850000)]⟩ (fun _ => 0)
        (fun _ => 0) (fun _ _ => false) 2 1).map (List.map Prod.fst) := by
  decide

/-- C10 amended: for a fixed SimConfig, two runs of the event generator
that draw the same seed-determined raw stream and observe the same
steady-clock pacing outcomes (the same batch-break decisions, tick count
and loop budget), differing only in the protocol-timestamp clock, produce
the same sequence of datagrams carrying the same records in the same
grouping (first conjunct), and hence datagrams that are byte-for-byte
identical once every record's header timestamp field is normalized
(second conjunct): the wall clock feeding header timestamps influences
nothing else in the stream. -/
theorem C10_seed_determinism (cfg : SimConfig) (rng : Nat → Nat)
    (break_now : Nat → Nat → Bool) (inner_fuel ticks : Nat)
    (clock1 clock2 : Nat → Nat) :
    (MarketSimulator.run cfg rng clock1 break_now inner_fuel ticks).map
        (List.map Prod.fst) =
      (MarketSimulator.run cfg rng clock2 break_now inner_fuel ticks).map
        (List.map Prod.fst) ∧
    (MarketSimulator.run cfg rng clock1 break_now inner_fuel ticks).map
        (fun recs => MarketSimulator.datagram_bytes
          (recs.map fun p => (p.1, 0))) =
      (MarketSimulator.run cfg rng clock2 break_now inner_fuel ticks).map
        (fun recs => MarketSimulator.datagram_bytes
          (recs.map fun p => (p.1, 0))) := by
  have h1 := run_batches_clock_irrelevant cfg rng break_now inner_fuel
    clock1 clock2 ticks (MarketSimulator.init_state cfg) 0
  refine ⟨h1, ?_⟩
  have hfun : ∀ recs : List (ParsedMessage × Nat),
      MarketSimulator.datagram_bytes (recs.map fun p => (p.1, 0)) =
        ((recs.map Prod.fst).map fun m => Encoder.encodeBytes m 0).flatten := by
    intro recs
    simp only [MarketSimulator.datagram_bytes, List.map_map]
    rfl
  have hmap : ∀ (xs : List (List (ParsedMessage × Nat))),
      xs.map (fun recs => MarketSimulator.datagram_bytes
          (recs.map fun p => (p.1, 0))) =
        (xs.map (List.map Prod.fst)).map
          (fun ms => (ms.map fun m => Encoder.encodeBytes m 0).flatten) := by
    intro xs
    rw [List.map_map]
    exact List.map_congr_left fun recs _ => hfun recs
  rw [MarketSimulator.run, MarketSimulator.run, hmap, hmap, h1]

end Mdfh
